import Mathlib

/-!
Verification of the go-deer structured logging core and its configuration
helpers against a shallow Lean embedding.

The logging definitions (`Level`, `Logger`, `LogContext`, the key-value
encoder and the emission pipeline) are modelled from spec.md: the `pkg/log`
implementation files are not part of the source tree here, only their test
suite is, so each such definition carries a `Modelled from the spec:` doc
comment.  The configuration definitions (`ConvertStringToList`,
`ConvertStringArrayToIntArray`, `ConvertStringSliceToString`, `GetIntSlice`)
are translated from `src/pkg/config/utils/convert.go` and
`src/pkg/config/config.go`; Go's `encoding/csv` single-record read and
`strconv.Atoi` are embedded by their documented behaviour.
-/

namespace GoDeer

/-- Modelled from the spec: the severity ranks of §4.3, totally ordered
`{Debug, Info, Warn, Error, DPanic, Panic, Fatal}` (the `pkg/log` level
definitions are missing from src/; `level_test.go` pins them to zap's). -/
inductive Level
  | debug
  | info
  | warn
  | error
  | dpanic
  | panic
  | fatal
  deriving DecidableEq, Repr

/-- Modelled from the spec: the integer severity rank of a level (zap's
numbering, Debug = -1 … Fatal = 5). -/
def Level.rank : Level → Int
  | .debug => -1
  | .info => 0
  | .warn => 1
  | .error => 2
  | .dpanic => 3
  | .panic => 4
  | .fatal => 5

/-- Modelled from the spec: `enabled(candidateRank)` on a gate holding
`threshold` is true iff `candidateRank ≥ threshold` (§4.3). -/
def Level.enabledAt (threshold candidate : Level) : Bool :=
  threshold.rank ≤ candidate.rank

/-- Modelled from the spec: the lowercase level name used in the
`[level:…]` segment (§4.2). -/
def Level.lowerName : Level → String
  | .debug => "debug"
  | .info => "info"
  | .warn => "warn"
  | .error => "error"
  | .dpanic => "dpanic"
  | .panic => "panic"
  | .fatal => "fatal"

/-- Modelled from the spec: severities at or above Error (Error, DPanic,
Panic, Fatal), for which a stacktrace may be appended (§4.2). -/
def Level.atLeastError (lvl : Level) : Bool :=
  Level.rank .error ≤ lvl.rank

/-- Modelled from the spec: a Level Gate is shared by reference; we model
the heap of gates as a list indexed by allocation order. -/
abbrev GateId := Nat

/-- Modelled from the spec: the heap of allocated level gates. -/
abbrev Gates := List Level

/-- Modelled from the spec: reading a gate's current threshold. -/
def gateValue (gs : Gates) (g : GateId) : Level :=
  gs.getD g .info

/-- Modelled from the spec: `withLevel` "constructs a brand-new,
independent Level Gate initialized to rank" — allocation appends a fresh
gate to the heap and returns its id (§4.4). -/
def newGate (gs : Gates) (lvl : Level) : Gates × GateId :=
  (gs ++ [lvl], gs.length)

/-- Modelled from the spec: rendering of a finite float64 value (shortest
round-trippable decimal) is kept opaque; the three distinguished values
NaN, +Inf and -Inf are explicit (§4.2). -/
inductive FloatVal
  | nan
  | posInf
  | negInf
  | finite (decimalText : String)
  deriving DecidableEq, Repr

/-- Modelled from the spec: the scalar field kinds of §3 whose per-kind
rendering rules §4.2 fixes.  Duration and timestamp values carry their
already-rendered text (fractional seconds resp. UTC microsecond form). -/
inductive Scalar
  | str (s : String)
  | boolVal (b : Bool)
  | intVal (n : Int)
  | floatVal (f : FloatVal)
  | durationSec (text : String)
  | timestamp (text : String)
  | errMsg (text : String)
  deriving DecidableEq, Repr

/-- Modelled from the spec: per-kind scalar rendering rules of §4.2:
booleans as `true`/`false`, integers base-10 with sign only if negative,
the distinguished float values as `NaN`, `+Inf`, `-Inf`, non-empty strings verbatim and the empty string
wrapped in two double-quote characters. -/
def Scalar.render : Scalar → String
  | .str s => if s = "" then "\"\"" else s
  | .boolVal b => if b then "true" else "false"
  | .intVal n => toString n
  | .floatVal .nan => "NaN"
  | .floatVal .posInf => "+Inf"
  | .floatVal .negInf => "-Inf"
  | .floatVal (.finite t) => t
  | .durationSec t => t
  | .timestamp t => t
  | .errMsg t => t

/-- Modelled from the spec: a field value is a scalar, a homogeneous
sequence of scalars (element order preserved), or the skip no-op (§3). -/
inductive FieldValue
  | scalar (s : Scalar)
  | seq (elems : List Scalar)
  | skip
  deriving DecidableEq, Repr

/-- Modelled from the spec: each sequence element rendered by its own
scalar rule, wrapped in its own brackets, concatenated with no
separator (§4.2). -/
def renderSeqElems : List Scalar → String
  | [] => ""
  | e :: es => "[" ++ e.render ++ "]" ++ renderSeqElems es

/-- Modelled from the spec: rendering of a field value (§4.2). -/
def FieldValue.render : FieldValue → String
  | .scalar s => s.render
  | .seq es => renderSeqElems es
  | .skip => ""

/-- Modelled from the spec: an immutable typed key/value pair (§3). -/
structure Field where
  key : String
  value : FieldValue
  deriving DecidableEq, Repr

/-- Modelled from the spec: the bracket segment `[key:value]` a field
contributes to a line; skip contributes no segment (§4.2). -/
def Field.segment (f : Field) : String :=
  match f.value with
  | .skip => ""
  | v => "[" ++ f.key ++ ":" ++ v.render ++ "]"

/-- Modelled from the spec: the field segments of a record, appended in
field order (§4.2). -/
def renderFields : List Field → String
  | [] => ""
  | f :: fs => f.segment ++ renderFields fs

/-- Modelled from the spec: a Logger binds a Level Gate (by reference), a
name path, an accumulated ordered field set, a caller-capture flag and a
stacktrace-on-error flag (§3, §4.4). -/
structure Logger where
  gate : GateId
  name : String
  fields : List Field
  callerOn : Bool
  stacktraceOnError : Bool
  deriving DecidableEq, Repr

/-- Modelled from the spec: `newLogger(gate, …)` builds a root Logger with
empty name, empty field set, caller-capture on, stacktrace-on-error on
(§4.4). -/
def newLogger (gate : GateId) : Logger :=
  ⟨gate, "", [], true, true⟩

/-- Modelled from the spec: `logger.with(fields…)` returns a new Logger
with the same gate/name/options and the accumulated field set extended,
order preserved, ancestor fields first (§4.4). -/
def Logger.withFields (l : Logger) (fs : List Field) : Logger :=
  { l with fields := l.fields ++ fs }

/-- Modelled from the spec: `logger.named(segment)` appends `segment` to
the name path after a `.` separator; the root name is empty, so the first
segment has no leading dot (§4.4). -/
def Logger.named (l : Logger) (segment : String) : Logger :=
  { l with name := if l.name = "" then segment else l.name ++ "." ++ segment }

/-- Modelled from the spec: a Logging Context is an immutable carrier of
its active Logger (§3); derivations return new contexts. -/
structure LogContext where
  logger : Logger
  deriving DecidableEq, Repr

/-- Modelled from the spec: `withLevel(ctx, rank)` allocates a brand-new
gate at `rank`, binds a Logger identical to the current one to it and
returns the derived context; no existing gate is mutated (§4.4). -/
def withLevel (gs : Gates) (ctx : LogContext) (lvl : Level) : Gates × LogContext :=
  let (gs2, g) := newGate gs lvl
  (gs2, ⟨{ ctx.logger with gate := g }⟩)

/-- Modelled from the spec: per-emission metadata — the rendered
timestamp, the rendered caller location and the stacktrace text that
would be captured (§3 LogRecord). -/
structure Meta where
  ts : String
  callerText : String
  stacktraceText : String
  deriving DecidableEq, Repr

/-- Modelled from the spec: the fixed-order bracket-segment encoding of
§4.2; the logger segment is entirely omitted when the name is empty, the
caller segment when absent, and the stacktrace segment is final. -/
def encodeRecord (ts : String) (lvl : Level) (name : String)
    (caller : Option String) (msg : String) (fields : List Field)
    (stacktrace : Option String) : String :=
  "[ts:" ++ ts ++ "][level:" ++ lvl.lowerName ++ "]"
    ++ (if name = "" then "" else "[logger:" ++ name ++ "]")
    ++ (match caller with
        | some c => "[caller:" ++ c ++ "]"
        | none => "")
    ++ "[msg:" ++ msg ++ "]"
    ++ renderFields fields
    ++ (match stacktrace with
        | some st => "[stacktrace:" ++ st ++ "]"
        | none => "")

/-- Modelled from the spec: an emission consults the bound gate; if
disabled it returns immediately with no line, otherwise it merges the
logger-accumulated fields with the ad hoc fields (ancestor fields first),
builds the record (stacktrace only at/above Error and only when the
policy flag is on, caller only when capture is on) and encodes it (§4.4). -/
def emit (gs : Gates) (ctx : LogContext) (lvl : Level) (meta : Meta)
    (msg : String) (adhoc : List Field) : Option String :=
  let l := ctx.logger
  if (gateValue gs l.gate).enabledAt lvl then
    some (encodeRecord meta.ts lvl l.name
      (if l.callerOn then some meta.callerText else none)
      msg (l.fields ++ adhoc)
      (if lvl.atLeastError && l.stacktraceOnError then some meta.stacktraceText else none))
  else
    none

/-- Modelled from the spec: the deferred-write handle returned by `check`
when the severity is enabled (§3, §4.4). -/
structure CheckedEntry where
  logger : Logger
  lvl : Level
  msg : String
  deriving DecidableEq, Repr

/-- Modelled from the spec: `check(ctx, rank, msg)` returns a live handle
only if `enabled(rank)` is true; no record is constructed otherwise
(§4.4). -/
def check (gs : Gates) (ctx : LogContext) (lvl : Level) (msg : String) :
    Option CheckedEntry :=
  if (gateValue gs ctx.logger.gate).enabledAt lvl then
    some ⟨ctx.logger, lvl, msg⟩
  else
    none

/-- Modelled from the spec: `CheckedEntry.write(fields…)` performs the
same merge/encode/emit as the eager emission (§4.4). -/
def CheckedEntry.write (ce : CheckedEntry) (meta : Meta) (adhoc : List Field) : String :=
  encodeRecord meta.ts ce.lvl ce.logger.name
    (if ce.logger.callerOn then some meta.callerText else none)
    ce.msg (ce.logger.fields ++ adhoc)
    (if ce.lvl.atLeastError && ce.logger.stacktraceOnError then
      some meta.stacktraceText
    else none)

/-- Embedding of Go `encoding/csv`: parse a bare (unquoted) field — it
extends to the next comma or the end of the record; a stray double quote
inside it is an error with the reader's default settings. -/
def csvBare : List Char → Except String (List Char × List Char)
  | [] => .ok ([], [])
  | c :: rest =>
    if c = ',' then .ok ([], c :: rest)
    else if c = '"' then .error "bare quote in non-quoted field"
    else
      match csvBare rest with
      | .error e => .error e
      | .ok (f, r) => .ok (c :: f, r)

/-- Embedding of Go `encoding/csv`: parse the remainder of a quoted field
(the opening quote already consumed); a doubled quote escapes one quote
character, the closing quote must be followed by a comma or the record
end. -/
def csvQuoted : List Char → Except String (List Char × List Char)
  | [] => .error "extraneous or missing quote in quoted-field"
  | '"' :: '"' :: rest =>
    (match csvQuoted rest with
     | .error e => .error e
     | .ok (f, r) => .ok ('"' :: f, r))
  | '"' :: ',' :: rest => .ok ([], ',' :: rest)
  | ['"'] => .ok ([], [])
  | '"' :: _ :: _ => .error "extraneous or missing quote in quoted-field"
  | c :: rest =>
    (match csvQuoted rest with
     | .error e => .error e
     | .ok (f, r) => .ok (c :: f, r))

/-- Embedding of Go `encoding/csv`: split one record line into its
comma-separated fields, a field being quoted when it starts with a double
quote.  `fuel` bounds the number of fields; `line.length + 1` always
suffices. -/
def csvFields : Nat → List Char → Except String (List String)
  | 0, _ => .error "out of fuel"
  | n + 1, cs =>
    match (if cs.head? = some '"' then csvQuoted cs.tail else csvBare cs) with
    | .error e => .error e
    | .ok (f, []) => .ok [String.mk f]
    | .ok (f, _ :: r2) =>
      match csvFields n r2 with
      | .error e => .error e
      | .ok fs => .ok (String.mk f :: fs)

/-- Embedding of Go `encoding/csv` `Reader.Read` restricted to
single-line records: an empty input yields the EOF error, otherwise the
first line (trailing carriage return stripped) is split into fields. -/
def csvReadRecord (value : String) : Except String (List String) :=
  if value = "" then .error "EOF"
  else
    let line := value.data.takeWhile (fun c => c ≠ '\n')
    let line := if line.getLast? = some '\r' then line.dropLast else line
    csvFields (line.length + 1) line

/-- Translated from src/pkg/config/utils/convert.go: `ConvertStringToList`
reads the first CSV record of `value` and returns its fields, or the read
error. -/
def ConvertStringToList (value : String) : Except String (List String) :=
  csvReadRecord value

/-- Embedding of Go `strings.Join`: concatenate the elements with the
separator between consecutive elements. -/
def stringsJoin (elems : List String) (sep : String) : String :=
  match elems with
  | [] => ""
  | [x] => x
  | x :: xs => x ++ sep ++ stringsJoin xs sep

/-- Translated from src/pkg/config/utils/convert.go:
`ConvertStringSliceToString` is `strings.Join(values, ",")`. -/
def ConvertStringSliceToString (values : List String) : String :=
  stringsJoin values ","

/-- Embedding of Go `strconv.Atoi`: an optional sign followed by one or
more ASCII digits, nothing else, with the 64-bit signed range check. -/
def atoi (s : String) : Except String Int :=
  match s.data with
  | [] => .error "invalid syntax"
  | c :: rest =>
    let (neg, ds) :=
      if c = '-' then (true, rest)
      else if c = '+' then (false, rest)
      else (false, c :: rest)
    if ds = [] then .error "invalid syntax"
    else if ds.all (fun d => d.isDigit) then
      let n : Nat := ds.foldl (fun a d => a * 10 + (d.toNat - 48)) 0
      let v : Int := if neg then -(n : Int) else (n : Int)
      if v < -(2 ^ 63) ∨ 2 ^ 63 - 1 < v then .error "value out of range"
      else .ok v
    else .error "invalid syntax"

/-- Translated from src/pkg/config/utils/convert.go:
`ConvertStringArrayToIntArray` converts every element with
`strconv.Atoi`, returning the first conversion error if one occurs. -/
def ConvertStringArrayToIntArray : List String → Except String (List Int)
  | [] => .ok []
  | s :: ss =>
    match atoi s with
    | .error e => .error e
    | .ok j =>
      match ConvertStringArrayToIntArray ss with
      | .error e => .error e
      | .ok rest => .ok (j :: rest)

/-- The loaded properties of a `Config`, modelled as an association list
(src/pkg/config/config.go stores them in `*properties.Properties`). -/
abbrev Properties := List (String × String)

/-- Embedding of `properties.Get`: the stored value for a key, if
present. -/
def propGet (p : Properties) (key : String) : Option String :=
  (p.find? (fun kv => kv.1 = key)).map (fun kv => kv.2)

/-- Translated from src/pkg/config/config.go: `getList` fetches the raw
value (empty string when absent) and CSV-decodes it; a decode error
yields `(nil, false)`. -/
def getList (p : Properties) (key : String) : List String × Bool :=
  let (inp, exist) :=
    match propGet p key with
    | some v => (v, true)
    | none => ("", false)
  match ConvertStringToList inp with
  | .error _ => ([], false)
  | .ok v => (v, exist)

/-- Translated from src/pkg/config/config.go: `GetIntSlice` returns the
parsed int list when the key's list exists and every element converts,
and the default values otherwise. -/
def GetIntSlice (p : Properties) (key : String) (defaultValues : List Int) : List Int :=
  let (v, exist) := getList p key
  if exist then
    match ConvertStringArrayToIntArray v with
    | .ok result => result
    | .error _ => defaultValues
  else defaultValues

/-! ### Helper lemmas -/

theorem renderFields_append (a b : List Field) :
    renderFields (a ++ b) = renderFields a ++ renderFields b := by
  induction a with
  | nil => simp [renderFields]
  | cons f fs ih => simp [renderFields, ih, String.append_assoc]

theorem encodeRecord_some_stacktrace (ts : String) (lvl : Level) (name : String)
    (caller : Option String) (msg : String) (fields : List Field) (st : String) :
    encodeRecord ts lvl name caller msg fields (some st)
      = encodeRecord ts lvl name caller msg fields none
        ++ ("[stacktrace:" ++ st ++ "]") := by
  simp [encodeRecord, String.append_assoc]

/-! ### Claims about the key-value encoder -/

/-- C4: the key-value encoder renders a non-empty string field value
verbatim (no quote characters added, even for values with spaces or
special characters) and renders the empty string value as the
two-character value `""`, independently of the field's position among
the other fields of the record. -/
theorem string_value_verbatim_empty_quoted (k v : String) (pre post : List Field) :
    Field.segment ⟨k, .scalar (.str v)⟩
        = "[" ++ k ++ ":" ++ (if v = "" then "\"\"" else v) ++ "]"
    ∧ (Scalar.str "").render = "\"\""
    ∧ renderFields (pre ++ ⟨k, .scalar (.str v)⟩ :: post)
        = renderFields pre ++ Field.segment ⟨k, .scalar (.str v)⟩ ++ renderFields post := by
  refine ⟨rfl, rfl, ?_⟩
  rw [renderFields_append]
  simp [renderFields, String.append_assoc]

/-- C5: a homogeneous scalar-sequence field renders each element by its
own scalar rule wrapped in its own brackets, concatenated with no
separator inside the key segment; the string sequence ["a","b","c"]
under key s renders as [s:[a][b][c]]. -/
theorem seq_field_rendering (k : String) (e : Scalar) (es : List Scalar) :
    Field.segment ⟨k, .seq es⟩ = "[" ++ k ++ ":" ++ renderSeqElems es ++ "]"
    ∧ renderSeqElems (e :: es) = "[" ++ e.render ++ "]" ++ renderSeqElems es
    ∧ renderSeqElems [] = ""
    ∧ Field.segment ⟨"s", .seq [.str "a", .str "b", .str "c"]⟩ = "[s:[a][b][c]]" := by
  exact ⟨rfl, rfl, rfl, by decide⟩

/-- C7: the key-value encoder renders the float64 value NaN as exactly
`NaN`, positive infinity as exactly `+Inf` and negative infinity as
exactly `-Inf`, for every field key. -/
theorem float_special_values (k : String) :
    Field.segment ⟨k, .scalar (.floatVal .nan)⟩ = "[" ++ k ++ ":" ++ "NaN" ++ "]"
    ∧ Field.segment ⟨k, .scalar (.floatVal .posInf)⟩ = "[" ++ k ++ ":" ++ "+Inf" ++ "]"
    ∧ Field.segment ⟨k, .scalar (.floatVal .negInf)⟩ = "[" ++ k ++ ":" ++ "-Inf" ++ "]" := by
  exact ⟨rfl, rfl, rfl⟩

/-- C8: `named(segment)` appends the segment to the ancestor's name path
after a `.` separator, with no leading dot when the ancestor name is
empty (so `named("a")` then `named("b")` from the root yields `a.b`),
and the encoder omits the `[logger:…]` segment entirely when the name is
empty. -/
theorem named_path_and_logger_segment (g : GateId) (l : Logger) (a b : String)
    (ha : a ≠ "") (hl : l.name ≠ "") (ts : String) (lvl : Level)
    (caller : Option String) (msg : String) (fields : List Field)
    (stk : Option String) :
    ((newLogger g).named a).name = a
    ∧ (Logger.named l b).name = l.name ++ "." ++ b
    ∧ (((newLogger g).named a).named b).name = a ++ "." ++ b
    ∧ encodeRecord ts lvl "" caller msg fields stk
        = "[ts:" ++ ts ++ "][level:" ++ lvl.lowerName ++ "]"
          ++ (match caller with
              | some c => "[caller:" ++ c ++ "]"
              | none => "")
          ++ "[msg:" ++ msg ++ "]"
          ++ renderFields fields
          ++ (match stk with
              | some st => "[stacktrace:" ++ st ++ "]"
              | none => "") := by
  refine ⟨by simp [Logger.named, newLogger], by simp [Logger.named, hl], ?_, ?_⟩
  · simp [Logger.named, newLogger, ha]
  · simp [encodeRecord]

/-- C6: an emitted line carries a stacktrace segment exactly when the
severity is at or above Error (Error, DPanic, Panic, Fatal) and the
stacktrace policy flag is on, and when present it is the final bracket
segment, positioned after all field segments. -/
theorem stacktrace_final_segment (gs : Gates) (ctx : LogContext) (lvl : Level)
    (meta : Meta) (msg : String) (adhoc : List Field) (line : String)
    (h : emit gs ctx lvl meta msg adhoc = some line) :
    line =
      encodeRecord meta.ts lvl ctx.logger.name
          (if ctx.logger.callerOn then some meta.callerText else none)
          msg (ctx.logger.fields ++ adhoc) none
        ++ (if lvl.atLeastError && ctx.logger.stacktraceOnError then
              "[stacktrace:" ++ meta.stacktraceText ++ "]"
            else "")
    ∧ encodeRecord meta.ts lvl ctx.logger.name
          (if ctx.logger.callerOn then some meta.callerText else none)
          msg (ctx.logger.fields ++ adhoc) none
        = "[ts:" ++ meta.ts ++ "][level:" ++ lvl.lowerName ++ "]"
          ++ (if ctx.logger.name = "" then "" else "[logger:" ++ ctx.logger.name ++ "]")
          ++ (if ctx.logger.callerOn then "[caller:" ++ meta.callerText ++ "]" else "")
          ++ "[msg:" ++ msg ++ "]" ++ renderFields (ctx.logger.fields ++ adhoc)
    ∧ Level.atLeastError .error = true
    ∧ Level.atLeastError .dpanic = true
    ∧ Level.atLeastError .panic = true
    ∧ Level.atLeastError .fatal = true
    ∧ Level.atLeastError .warn = false
    ∧ Level.atLeastError .info = false
    ∧ Level.atLeastError .debug = false := by
  refine ⟨?_, ?_, by decide, by decide, by decide, by decide, by decide, by decide, by decide⟩
  · unfold emit at h
    by_cases hen : (gateValue gs ctx.logger.gate).enabledAt lvl
    · simp only [hen, if_true] at h
      cases h
      by_cases hst : lvl.atLeastError && ctx.logger.stacktraceOnError
      · simp only [hst, if_true]
        exact encodeRecord_some_stacktrace _ _ _ _ _ _ _
      · simp only [hst, if_false]
        simp [String.append_empty]
    · simp [hen] at h
  · by_cases hname : ctx.logger.name = "" <;>
      by_cases hcall : ctx.logger.callerOn <;>
        simp [encodeRecord, hname, hcall, String.append_assoc]

/-- C2: an emission through a logger extended by field attachment renders
the accumulated contextual fields first, in attachment order (ancestor
fields before newly attached ones), followed by the ad hoc fields of the
emission call, all after the message segment; naming a descendant keeps
the accumulated fields and further attachment appends after them. -/
theorem context_fields_before_adhoc (gs : Gates) (l : Logger)
    (cf cf2 adhoc : List Field) (seg : String) (lvl : Level) (meta : Meta)
    (msg : String)
    (hen : (gateValue gs l.gate).enabledAt lvl = true) :
    (l.withFields cf).fields = l.fields ++ cf
    ∧ ((l.withFields cf).named seg).fields = l.fields ++ cf
    ∧ ((l.withFields cf).withFields cf2).fields = (l.fields ++ cf) ++ cf2
    ∧ emit gs ⟨l.withFields cf⟩ lvl meta msg adhoc =
        some ("[ts:" ++ meta.ts ++ "][level:" ++ lvl.lowerName ++ "]"
          ++ (if l.name = "" then "" else "[logger:" ++ l.name ++ "]")
          ++ (if l.callerOn then "[caller:" ++ meta.callerText ++ "]" else "")
          ++ "[msg:" ++ msg ++ "]"
          ++ (renderFields (l.fields ++ cf) ++ renderFields adhoc)
          ++ (if lvl.atLeastError && l.stacktraceOnError then
                "[stacktrace:" ++ meta.stacktraceText ++ "]"
              else "")) := by
  refine ⟨rfl, rfl, rfl, ?_⟩
  unfold emit
  simp only [Logger.withFields, hen, if_true]
  congr 1
  rw [← renderFields_append (l.fields ++ cf) adhoc]
  by_cases hname : l.name = "" <;>
    by_cases hcall : l.callerOn <;>
      by_cases hst : lvl.atLeastError && l.stacktraceOnError <;>
        simp [encodeRecord, hname, hcall, hst, String.append_assoc]

/-- C3: `check` returns a live handle exactly when the bound gate enables
the severity; when it returns none no line is emitted, and when it
returns a handle, the handle's `write` produces exactly the line the
eager emission would produce. -/
theorem check_matches_eager_emission (gs : Gates) (ctx : LogContext) (lvl : Level)
    (meta : Meta) (msg : String) (adhoc : List Field) :
    (check gs ctx lvl msg).isSome = (gateValue gs ctx.logger.gate).enabledAt lvl
    ∧ (check gs ctx lvl msg = none → emit gs ctx lvl meta msg adhoc = none)
    ∧ ((gateValue gs ctx.logger.gate).enabledAt lvl = true →
        check gs ctx lvl msg = some ⟨ctx.logger, lvl, msg⟩
        ∧ emit gs ctx lvl meta msg adhoc
            = some (CheckedEntry.write ⟨ctx.logger, lvl, msg⟩ meta adhoc)) := by
  by_cases hen : (gateValue gs ctx.logger.gate).enabledAt lvl = true
  · refine ⟨?_, ?_, fun _ => ⟨?_, ?_⟩⟩
    · simp [check, hen]
    · intro hnone
      simp [check, hen] at hnone
    · simp [check, hen]
    · simp [emit, check, hen, CheckedEntry.write]
  · rw [Bool.not_eq_true] at hen
    refine ⟨?_, ?_, ?_⟩
    · simp [check, hen]
    · intro _
      simp [emit, hen]
    · intro hcontra
      rw [hcontra] at hen
      cases hen

/-- C1: `withLevel` binds the derived context to a brand-new gate
initialized to the requested rank without touching any existing gate:
every previously allocated gate keeps its value, emissions through the
original context or any sibling are unchanged, and emissions through
the derived context are gated exactly by the new rank; the derived
logger is otherwise identical (same name and accumulated fields). -/
theorem withLevel_branch_isolation (gs : Gates) (ctx sibling : LogContext)
    (r : Level) (g : GateId) (hg : g < gs.length)
    (hsib : sibling.logger.gate < gs.length)
    (lvl : Level) (meta : Meta) (msg : String) (adhoc : List Field) :
    gateValue (withLevel gs ctx r).1 (withLevel gs ctx r).2.logger.gate = r
    ∧ gateValue (withLevel gs ctx r).1 g = gateValue gs g
    ∧ emit (withLevel gs ctx r).1 sibling lvl meta msg adhoc
        = emit gs sibling lvl meta msg adhoc
    ∧ (emit (withLevel gs ctx r).1 (withLevel gs ctx r).2 lvl meta msg adhoc).isSome
        = r.enabledAt lvl
    ∧ (withLevel gs ctx r).2.logger.name = ctx.logger.name
    ∧ (withLevel gs ctx r).2.logger.fields = ctx.logger.fields := by
  have hfresh : gateValue (gs ++ [r]) gs.length = r := by
    simp [gateValue, List.getD]
  have hold : ∀ g2, g2 < gs.length → gateValue (gs ++ [r]) g2 = gateValue gs g2 := by
    intro g2 hg2
    simp [gateValue, List.getD, List.getElem?_append, hg2]
  have hheap : (withLevel gs ctx r).1 = gs ++ [r] := rfl
  refine ⟨hfresh, hold g hg, ?_, ?_, rfl, rfl⟩
  · simp only [emit, hheap, hold sibling.logger.gate hsib]
  · show (emit (gs ++ [r]) ⟨{ ctx.logger with gate := gs.length }⟩ lvl meta msg adhoc).isSome
        = r.enabledAt lvl
    unfold emit
    simp only [hfresh]
    by_cases hen : r.enabledAt lvl = true
    · simp [hen]
    · rw [Bool.not_eq_true] at hen
      simp [hen]

/-- Witness for `named_path_and_logger_segment` at a concrete input. -/
theorem named_path_and_logger_segment_witness :
    ("a" : String) ≠ ""
    ∧ ("n" : String) ≠ ""
    ∧ (((newLogger 0).named "a").name = "a"
        ∧ (Logger.named ⟨0, "n", [], true, true⟩ "b").name = "n" ++ "." ++ "b"
        ∧ (((newLogger 0).named "a").named "b").name = "a" ++ "." ++ "b"
        ∧ encodeRecord "T" .info "" none "m" [] none
            = "[ts:" ++ "T" ++ "][level:" ++ Level.lowerName .info ++ "]"
              ++ "" ++ "[msg:" ++ "m" ++ "]" ++ renderFields [] ++ "") :=
  ⟨by decide, by decide,
    named_path_and_logger_segment 0 ⟨0, "n", [], true, true⟩ "a" "b"
      (by decide) (by decide) "T" .info none "m" [] none⟩

/-- Witness for `stacktrace_final_segment` at a concrete input. -/
theorem stacktrace_final_segment_witness :
    emit [Level.debug] ⟨newLogger 0⟩ .error ⟨"T", "C", "S"⟩ "boom"
        [⟨"k", .scalar (.str "v")⟩]
      = some "[ts:T][level:error][caller:C][msg:boom][k:v][stacktrace:S]"
    ∧ ("[ts:T][level:error][caller:C][msg:boom][k:v][stacktrace:S]"
          = encodeRecord "T" .error "" (some "C") "boom"
              ([] ++ [⟨"k", .scalar (.str "v")⟩]) none
            ++ "[stacktrace:" ++ "S" ++ "]"
        ∧ encodeRecord "T" .error "" (some "C") "boom"
              ([] ++ [⟨"k", .scalar (.str "v")⟩]) none
            = "[ts:" ++ "T" ++ "][level:" ++ Level.lowerName .error ++ "]"
              ++ "" ++ "[caller:" ++ "C" ++ "]" ++ "[msg:" ++ "boom" ++ "]"
              ++ renderFields ([] ++ [⟨"k", .scalar (.str "v")⟩])
        ∧ Level.atLeastError .error = true
        ∧ Level.atLeastError .dpanic = true
        ∧ Level.atLeastError .panic = true
        ∧ Level.atLeastError .fatal = true
        ∧ Level.atLeastError .warn = false
        ∧ Level.atLeastError .info = false
        ∧ Level.atLeastError .debug = false) :=
  ⟨by decide,
    stacktrace_final_segment [Level.debug] ⟨newLogger 0⟩ .error ⟨"T", "C", "S"⟩
      "boom" [⟨"k", .scalar (.str "v")⟩]
      "[ts:T][level:error][caller:C][msg:boom][k:v][stacktrace:S]" (by decide)⟩

/-- Witness for `context_fields_before_adhoc` at a concrete input. -/
theorem context_fields_before_adhoc_witness :
    (gateValue [Level.debug] (newLogger 0).gate).enabledAt .info = true
    ∧ (((newLogger 0).withFields [⟨"a", .scalar (.str "v")⟩]).fields
          = [] ++ [⟨"a", .scalar (.str "v")⟩]
        ∧ (((newLogger 0).withFields [⟨"a", .scalar (.str "v")⟩]).named "s").fields
            = [] ++ [⟨"a", .scalar (.str "v")⟩]
        ∧ (((newLogger 0).withFields [⟨"a", .scalar (.str "v")⟩]).withFields []).fields
            = ([] ++ [⟨"a", .scalar (.str "v")⟩]) ++ []
        ∧ emit [Level.debug] ⟨(newLogger 0).withFields [⟨"a", .scalar (.str "v")⟩]⟩
              .info ⟨"T", "C", "S"⟩ "m" [⟨"b", .scalar (.str "w")⟩]
            = some ("[ts:" ++ "T" ++ "][level:" ++ Level.lowerName .info ++ "]"
              ++ "" ++ "[caller:" ++ "C" ++ "]" ++ "[msg:" ++ "m" ++ "]"
              ++ (renderFields ([] ++ [⟨"a", .scalar (.str "v")⟩])
                  ++ renderFields [⟨"b", .scalar (.str "w")⟩])
              ++ "")) :=
  ⟨by decide,
    context_fields_before_adhoc [Level.debug] (newLogger 0)
      [⟨"a", .scalar (.str "v")⟩] [] [⟨"b", .scalar (.str "w")⟩] "s" .info
      ⟨"T", "C", "S"⟩ "m" (by decide)⟩

/-- Witness for `check_matches_eager_emission` at a concrete input. -/
theorem check_matches_eager_emission_witness :
    (check [Level.info] ⟨newLogger 0⟩ .debug "x").isSome
        = (gateValue [Level.info] (newLogger 0).gate).enabledAt .debug
    ∧ (check [Level.info] ⟨newLogger 0⟩ .debug "x" = none →
        emit [Level.info] ⟨newLogger 0⟩ .debug ⟨"T", "C", "S"⟩ "x" [] = none)
    ∧ ((gateValue [Level.info] (newLogger 0).gate).enabledAt .debug = true →
        check [Level.info] ⟨newLogger 0⟩ .debug "x" = some ⟨newLogger 0, .debug, "x"⟩
        ∧ emit [Level.info] ⟨newLogger 0⟩ .debug ⟨"T", "C", "S"⟩ "x" []
            = some (CheckedEntry.write ⟨newLogger 0, .debug, "x"⟩ ⟨"T", "C", "S"⟩ [])) :=
  check_matches_eager_emission [Level.info] ⟨newLogger 0⟩ .debug ⟨"T", "C", "S"⟩ "x" []

/-- Witness for `withLevel_branch_isolation` at a concrete input. -/
theorem withLevel_branch_isolation_witness :
    gateValue (withLevel [Level.error] ⟨newLogger 0⟩ .info).1
        (withLevel [Level.error] ⟨newLogger 0⟩ .info).2.logger.gate = .info
    ∧ gateValue (withLevel [Level.error] ⟨newLogger 0⟩ .info).1 0
        = gateValue [Level.error] 0
    ∧ emit (withLevel [Level.error] ⟨newLogger 0⟩ .info).1 ⟨newLogger 0⟩ .info
          ⟨"T", "C", "S"⟩ "m" []
        = emit [Level.error] ⟨newLogger 0⟩ .info ⟨"T", "C", "S"⟩ "m" []
    ∧ (emit (withLevel [Level.error] ⟨newLogger 0⟩ .info).1
          (withLevel [Level.error] ⟨newLogger 0⟩ .info).2 .info
          ⟨"T", "C", "S"⟩ "m" []).isSome
        = Level.enabledAt .info .info
    ∧ (withLevel [Level.error] ⟨newLogger 0⟩ .info).2.logger.name = ""
    ∧ (withLevel [Level.error] ⟨newLogger 0⟩ .info).2.logger.fields = [] :=
  withLevel_branch_isolation [Level.error] ⟨newLogger 0⟩ ⟨newLogger 0⟩ .info 0
    (by decide) (by decide) .info ⟨"T", "C", "S"⟩ "m" []

/-! ### Claims about the configuration converters -/

theorem comma_data : ("," : String).data = [','] := rfl

theorem data_ne_nil_of_ne_empty (v : String) (hv : v ≠ "") : v.data ≠ [] := by
  intro h
  exact hv (String.ext h)

theorem joinData_cons (v w : String) (ws : List String) :
    (ConvertStringSliceToString (v :: w :: ws)).data
      = v.data ++ ',' :: (ConvertStringSliceToString (w :: ws)).data := by
  simp [ConvertStringSliceToString, stringsJoin, String.data_append, comma_data,
    List.append_assoc, List.singleton_append]

theorem joinData_chars (values : List String) (c : Char)
    (hc : c ∈ (ConvertStringSliceToString values).data) :
    c = ',' ∨ ∃ v ∈ values, c ∈ v.data := by
  induction values with
  | nil => simp [ConvertStringSliceToString, stringsJoin] at hc
  | cons v vs ih =>
    cases vs with
    | nil =>
      right
      refine ⟨v, List.mem_cons_self v [], ?_⟩
      have hself : ConvertStringSliceToString [v] = v := rfl
      rwa [hself] at hc
    | cons w ws =>
      rw [joinData_cons] at hc
      rcases List.mem_append.mp hc with h | h
      · exact Or.inr ⟨v, List.mem_cons_self v (w :: ws), h⟩
      · rcases List.mem_cons.mp h with h2 | h2
        · exact Or.inl h2
        · rcases ih h2 with h3 | ⟨u, hu, hcu⟩
          · exact Or.inl h3
          · exact Or.inr ⟨u, List.mem_cons_of_mem v hu, hcu⟩

theorem join_ne_empty (v : String) (vs : List String) (hv : v ≠ "") :
    ConvertStringSliceToString (v :: vs) ≠ "" := by
  cases vs with
  | nil => exact hv
  | cons w ws =>
    intro h
    have hd : (ConvertStringSliceToString (v :: w :: ws)).data = [] := by
      rw [h]
    rw [joinData_cons] at hd
    obtain ⟨c, cs, hcons⟩ := List.exists_cons_of_ne_nil (data_ne_nil_of_ne_empty v hv)
    rw [hcons] at hd
    simp at hd

theorem csvBare_clean (e r : List Char)
    (hclean : ∀ c ∈ e, c ≠ ',' ∧ c ≠ '"')
    (hr : r = [] ∨ ∃ r2, r = ',' :: r2) :
    csvBare (e ++ r) = .ok (e, r) := by
  induction e with
  | nil =>
    rcases hr with h | ⟨r2, h⟩ <;> subst h
    · rfl
    · simp [csvBare]
  | cons c e2 ih =>
    have hc := hclean c (List.mem_cons_self c e2)
    have ih2 := ih (fun x hx => hclean x (List.mem_cons_of_mem c hx))
    simp only [List.cons_append, csvBare, hc.1, hc.2, if_false, List.append_eq, ih2]

theorem csvFields_join : ∀ (values : List String) (fuel : Nat),
    values ≠ [] →
    (∀ v ∈ values, v ≠ "" ∧ ∀ c ∈ v.data, c ≠ ',' ∧ c ≠ '"') →
    (ConvertStringSliceToString values).data.length + 1 ≤ fuel →
    csvFields fuel (ConvertStringSliceToString values).data = .ok values := by
  intro values
  induction values with
  | nil =>
    intro fuel hne _ _
    exact absurd rfl hne
  | cons v vs ih =>
    intro fuel _ hclean hfuel
    obtain ⟨hv, hvchars⟩ := hclean v (List.mem_cons_self v vs)
    obtain ⟨c, cs, hcons⟩ := List.exists_cons_of_ne_nil (data_ne_nil_of_ne_empty v hv)
    have hcq : c ≠ '"' := (hvchars c (by rw [hcons]; exact List.mem_cons_self c cs)).2
    cases fuel with
    | zero => omega
    | succ n =>
      cases vs with
      | nil =>
        have hself : ConvertStringSliceToString [v] = v := rfl
        rw [hself] at hfuel ⊢
        have hhead : ¬ (v.data.head? = some '"') := by
          rw [hcons]
          simp [hcq]
        have hbare : csvBare v.data = .ok (v.data, []) := by
          have h2 := csvBare_clean v.data [] hvchars (Or.inl rfl)
          rwa [List.append_nil] at h2
        simp only [csvFields, if_neg hhead, hbare]
      | cons w ws =>
        rw [joinData_cons] at hfuel ⊢
        have hhead :
            ¬ ((v.data ++ ',' :: (ConvertStringSliceToString (w :: ws)).data).head?
                = some '"') := by
          rw [hcons]
          simp [hcq]
        have hbare :=
          csvBare_clean v.data (',' :: (ConvertStringSliceToString (w :: ws)).data)
            hvchars (Or.inr ⟨_, rfl⟩)
        have hrec : csvFields n (ConvertStringSliceToString (w :: ws)).data
            = .ok (w :: ws) := by
          apply ih n (List.cons_ne_nil w ws)
            (fun x hx => hclean x (List.mem_cons_of_mem v hx))
          simp only [List.length_append, List.length_cons] at hfuel
          omega
        simp only [csvFields, if_neg hhead, hbare, hrec]

theorem csvReadRecord_clean (s : String) (hs : s ≠ "")
    (hnl : ∀ c ∈ s.data, c ≠ '\n')
    (hcr : ¬ (s.data.getLast? = some '\r')) :
    csvReadRecord s = csvFields (s.data.length + 1) s.data := by
  unfold csvReadRecord
  rw [if_neg hs]
  have htake : s.data.takeWhile (fun c => c ≠ '\n') = s.data := by
    apply List.takeWhile_eq_self_iff.mpr
    intro c hc
    simpa using hnl c hc
  simp only [htake, if_neg hcr]

/-- C9: for every non-empty list of strings whose elements are non-empty
and free of comma, double-quote, newline and carriage-return characters,
decoding the comma-joined encoding returns exactly the original list:
`ConvertStringToList (ConvertStringSliceToString values) = ok values`. -/
theorem convert_string_list_roundtrip (values : List String)
    (hne : values ≠ [])
    (hclean : ∀ v ∈ values, v ≠ "" ∧ ∀ c ∈ v.data,
        c ≠ ',' ∧ c ≠ '"' ∧ c ≠ '\n' ∧ c ≠ '\r') :
    ConvertStringToList (ConvertStringSliceToString values) = .ok values := by
  obtain ⟨v, vs, rfl⟩ := List.exists_cons_of_ne_nil hne
  have hjoinchars : ∀ c ∈ (ConvertStringSliceToString (v :: vs)).data,
      c ≠ '"' ∧ c ≠ '\n' ∧ c ≠ '\r' := by
    intro c hc
    rcases joinData_chars (v :: vs) c hc with h | ⟨u, hu, hcu⟩
    · subst h
      refine ⟨by decide, by decide, by decide⟩
    · exact ((hclean u hu).2 c hcu).2
  have hsne : ConvertStringSliceToString (v :: vs) ≠ "" :=
    join_ne_empty v vs (hclean v (List.mem_cons_self v vs)).1
  have hcr : ¬ ((ConvertStringSliceToString (v :: vs)).data.getLast? = some '\r') := by
    intro h
    have hm : '\r' ∈ (ConvertStringSliceToString (v :: vs)).data.getLast? :=
      Option.mem_def.mpr h
    obtain ⟨hne2, heq⟩ := List.mem_getLast?_eq_getLast hm
    have hmem : '\r' ∈ (ConvertStringSliceToString (v :: vs)).data := by
      rw [heq]
      exact List.getLast_mem hne2
    exact (hjoinchars '\r' hmem).2.2 rfl
  have hread := csvReadRecord_clean (ConvertStringSliceToString (v :: vs)) hsne
    (fun c hc => (hjoinchars c hc).2.1) hcr
  show csvReadRecord (ConvertStringSliceToString (v :: vs)) = .ok (v :: vs)
  rw [hread]
  exact csvFields_join (v :: vs) _ (List.cons_ne_nil v vs)
    (fun u hu => ⟨(hclean u hu).1,
      fun c hc => ⟨((hclean u hu).2 c hc).1, ((hclean u hu).2 c hc).2.1⟩⟩)
    (Nat.le_refl _)

/-- Witness for `convert_string_list_roundtrip` at a concrete input. -/
theorem convert_string_list_roundtrip_witness :
    (["a1", "b1", "c1"] : List String) ≠ []
    ∧ (∀ v ∈ (["a1", "b1", "c1"] : List String), v ≠ "" ∧ ∀ c ∈ v.data,
        c ≠ ',' ∧ c ≠ '"' ∧ c ≠ '\n' ∧ c ≠ '\r')
    ∧ ConvertStringToList (ConvertStringSliceToString ["a1", "b1", "c1"])
        = .ok ["a1", "b1", "c1"] :=
  ⟨by decide, by decide,
    convert_string_list_roundtrip ["a1", "b1", "c1"] (by decide) (by decide)⟩

theorem convertInt_error_of_bad (l : List String)
    (hbad : ∃ e ∈ l, (atoi e).toOption = none) :
    ∃ msg, ConvertStringArrayToIntArray l = .error msg := by
  induction l with
  | nil =>
    rcases hbad with ⟨e, he, _⟩
    cases he
  | cons s ss ih =>
    rcases hbad with ⟨e, he, hbade⟩
    rcases List.mem_cons.mp he with rfl | he2
    · cases hatoi : atoi e with
      | error msg => exact ⟨msg, by simp [ConvertStringArrayToIntArray, hatoi]⟩
      | ok j =>
        rw [hatoi] at hbade
        simp [Except.toOption] at hbade
    · cases hatoi : atoi s with
      | error msg => exact ⟨msg, by simp [ConvertStringArrayToIntArray, hatoi]⟩
      | ok j =>
        obtain ⟨msg, hmsg⟩ := ih ⟨e, he2, hbade⟩
        exact ⟨msg, by simp [ConvertStringArrayToIntArray, hatoi, hmsg]⟩

/-- C10: `GetIntSlice` returns the provided default slice whenever the
key is absent or the key's comma-separated value has an element that
fails base-10 integer conversion, and it returns the parsed list exactly
when every element converts. -/
theorem getIntSlice_defaults_and_parse (p : Properties) (key : String)
    (defaultValues : List Int) (raw : String) (l : List String) (res : List Int) :
    (propGet p key = none → GetIntSlice p key defaultValues = defaultValues)
    ∧ (propGet p key = some raw → ConvertStringToList raw = .ok l →
        (∃ e ∈ l, (atoi e).toOption = none) →
        GetIntSlice p key defaultValues = defaultValues)
    ∧ (propGet p key = some raw → ConvertStringToList raw = .ok l →
        ConvertStringArrayToIntArray l = .ok res →
        GetIntSlice p key defaultValues = res)
    ∧ (GetIntSlice p key defaultValues ≠ defaultValues →
        ∃ raw2 l2, propGet p key = some raw2 ∧ ConvertStringToList raw2 = .ok l2
          ∧ ConvertStringArrayToIntArray l2
              = .ok (GetIntSlice p key defaultValues)) := by
  refine ⟨?_, ?_, ?_, ?_⟩
  · intro h
    simp [GetIntSlice, getList, h, ConvertStringToList, csvReadRecord]
  · intro h1 h2 hbad
    obtain ⟨msg, hmsg⟩ := convertInt_error_of_bad l hbad
    simp [GetIntSlice, getList, h1, h2, hmsg]
  · intro h1 h2 h3
    simp [GetIntSlice, getList, h1, h2, h3]
  · intro hne
    cases hget : propGet p key with
    | none =>
      exact absurd (by simp [GetIntSlice, getList, hget, ConvertStringToList,
        csvReadRecord]) hne
    | some raw2 =>
      cases hcsv : ConvertStringToList raw2 with
      | error msg =>
        exact absurd (by simp [GetIntSlice, getList, hget, hcsv]) hne
      | ok l2 =>
        cases hconv : ConvertStringArrayToIntArray l2 with
        | error msg =>
          exact absurd (by simp [GetIntSlice, getList, hget, hcsv, hconv]) hne
        | ok res2 =>
          refine ⟨raw2, l2, rfl, hcsv, ?_⟩
          have hval : GetIntSlice p key defaultValues = res2 := by
            simp [GetIntSlice, getList, hget, hcsv, hconv]
          rw [hval, hconv]

/-- Witness for `getIntSlice_defaults_and_parse` at a concrete input. -/
theorem getIntSlice_defaults_and_parse_witness :
    (propGet [("k", "10,a")] "missing" = none →
        GetIntSlice [("k", "10,a")] "missing" [231, 582] = [231, 582])
    ∧ (propGet [("k", "10,a")] "k" = some "10,a" →
        ConvertStringToList "10,a" = .ok ["10", "a"] →
        (∃ e ∈ ["10", "a"], (atoi e).toOption = none) →
        GetIntSlice [("k", "10,a")] "k" [231, 582] = [231, 582])
    ∧ (propGet [("k", "10,a")] "k" = some "10,a" →
        ConvertStringToList "10,a" = .ok ["10", "a"] →
        ConvertStringArrayToIntArray ["10", "a"] = .ok [7] →
        GetIntSlice [("k", "10,a")] "k" [231, 582] = [7])
    ∧ (GetIntSlice [("k", "10,a")] "k" [231, 582] ≠ [231, 582] →
        ∃ raw2 l2, propGet [("k", "10,a")] "k" = some raw2
          ∧ ConvertStringToList raw2 = .ok l2
          ∧ ConvertStringArrayToIntArray l2
              = .ok (GetIntSlice [("k", "10,a")] "k" [231, 582])) := by
  have h1 := (getIntSlice_defaults_and_parse [("k", "10,a")] "missing" [231, 582]
    "10,a" ["10", "a"] [7]).1
  have h2 := getIntSlice_defaults_and_parse [("k", "10,a")] "k" [231, 582]
    "10,a" ["10", "a"] [7]
  exact ⟨h1, h2.2.1, h2.2.2.1, h2.2.2.2⟩

end GoDeer
